import Mathlib

/-!
Verification of the employees-api in-memory store (`src/main.ts`).

The store is a JavaScript `Map<string, Employee>`; it is modelled as an
association list in insertion order, which mirrors the Map's stable,
insertion-ordered iteration. Timestamps are modelled as natural numbers
(milliseconds since the epoch) and salaries as integers: the program performs
no arithmetic on them beyond order comparisons. The non-deterministic inputs
(`uuidv4()`, `new Date()`, the faker generators) are parameters of the model.
-/

namespace EmployeesApi

/-- An employee record, after `interface Employee` in `src/main.ts`. -/
structure Employee where
  id : String
  firstName : String
  lastName : String
  email : String
  position : String
  department : String
  salary : Int
  hireDate : Nat
  isActive : Bool
deriving Repr, DecidableEq

/-- Payload of a create call, after `interface CreateEmployeeRequest`. -/
structure CreateEmployeeRequest where
  firstName : String
  lastName : String
  email : String
  position : String
  department : String
  salary : Int
deriving Repr, DecidableEq

/-- Payload of an update call, after `interface UpdateEmployeeRequest`, which
extends `Partial<CreateEmployeeRequest>` with an optional `isActive`: every
field is optional, and neither `id` nor `hireDate` is part of the type. -/
structure UpdateEmployeeRequest where
  firstName : Option String := none
  lastName : Option String := none
  email : Option String := none
  position : Option String := none
  department : Option String := none
  salary : Option Int := none
  isActive : Option Bool := none
deriving Repr, DecidableEq

/-- Pagination metadata of a `findAll` response. -/
structure PaginationMeta where
  page : Nat
  limit : Nat
  total : Nat
  totalPages : Nat
  hasNext : Bool
  hasPrev : Bool
deriving Repr, DecidableEq

/-- A `findAll` response, after `interface PaginatedResponse<Employee>`. -/
structure PaginatedResponse where
  data : List Employee
  pagination : PaginationMeta
deriving Repr, DecidableEq

/-- The store's table: `Map<string, Employee>` as an insertion-ordered
association list. -/
abbrev Store := List (String × Employee)

/-- JavaScript `Map.prototype.get`. -/
def mapGet : Store → String → Option Employee
  | [], _ => none
  | (k', v) :: rest, k => if k' = k then some v else mapGet rest k

/-- JavaScript `Map.prototype.set`: when the key is already present the value
is replaced in place (the entry keeps its position in iteration order);
otherwise a new entry is appended at the end. -/
def mapSet : Store → String → Employee → Store
  | [], k, v => [(k, v)]
  | (k', v') :: rest, k, v =>
    if k' = k then (k, v) :: rest else (k', v') :: mapSet rest k v

/-- JavaScript `Map.prototype.delete`, the table part: removes the entry with
the given key, keeping all other entries in order. -/
def mapDelete : Store → String → Store
  | [], _ => []
  | (k', v') :: rest, k => if k' = k then rest else (k', v') :: mapDelete rest k

/-- Iteration order of the table's keys. -/
def keys (m : Store) : List String := m.map Prod.fst

/-- Iteration order of the table's records, i.e. `Array.from(map.values())`. -/
def values (m : Store) : List Employee := m.map Prod.snd

namespace EmployeeStore

/-- `EmployeeStore.create`. The fresh `uuidv4()` and the current time
`new Date()` are inputs of the model (`newId`, `now`). The spread
`id, ...employeeData, hireDate, isActive` builds the record below. -/
def create (m : Store) (newId : String) (now : Nat) (d : CreateEmployeeRequest) :
    Employee × Store :=
  let e : Employee := {
    id := newId
    firstName := d.firstName
    lastName := d.lastName
    email := d.email
    position := d.position
    department := d.department
    salary := d.salary
    hireDate := now
    isActive := true }
  (e, mapSet m newId e)

/-- `EmployeeStore.findById`: `this.employees.get(id)`. -/
def findById (m : Store) (id : String) : Option Employee := mapGet m id

/-- Natural-number rendering of `Math.ceil(total / limit)`: for `limit ≥ 1`
this rounded-up quotient is exactly what the floating-point expression
computes on the sizes involved. -/
def ceilNat (total limit : Nat) : Nat := (total + limit - 1) / limit

/-- `EmployeeStore.findAll`: slices `Array.from(this.employees.values())`
from `(page - 1) * limit` to `(page - 1) * limit + limit` and attaches the
pagination metadata. `slice(start, end)` keeps the elements at offsets
`start` to `end - 1`, clamped to the array. -/
def findAll (m : Store) (page : Nat) (limit : Nat) : PaginatedResponse :=
  let allEmployees := values m
  let total := allEmployees.length
  let totalPages := ceilNat total limit
  let startIndex := (page - 1) * limit
  let endIndex := startIndex + limit
  let data := (allEmployees.drop startIndex).take (endIndex - startIndex)
  { data := data
    pagination := {
      page := page
      limit := limit
      total := total
      totalPages := totalPages
      hasNext := decide (page < totalPages)
      hasPrev := decide (1 < page) } }

/-- The spread merge `...employee, ...updateData` in `EmployeeStore.update`:
a payload field overwrites the stored one exactly when it is present; `id`
and `hireDate` are not part of the payload type and pass through. -/
def applyUpdate (e : Employee) (u : UpdateEmployeeRequest) : Employee :=
  { e with
    firstName := u.firstName.getD e.firstName
    lastName := u.lastName.getD e.lastName
    email := u.email.getD e.email
    position := u.position.getD e.position
    department := u.department.getD e.department
    salary := u.salary.getD e.salary
    isActive := u.isActive.getD e.isActive }

/-- `EmployeeStore.update`: `null` (here `none`) on an unknown id, otherwise
stores and returns the merged record. -/
def update (m : Store) (id : String) (u : UpdateEmployeeRequest) :
    Option Employee × Store :=
  match mapGet m id with
  | none => (none, m)
  | some e =>
    let e' := applyUpdate e u
    (some e', mapSet m id e')

/-- `EmployeeStore.delete`: returns whether an entry existed (the boolean
`Map.prototype.delete` reports) together with the table afterwards. -/
def delete (m : Store) (id : String) : Bool × Store :=
  ((mapGet m id).isSome, mapDelete m id)

/-- `EmployeeStore.count`: `this.employees.size`. -/
def count (m : Store) : Nat := m.length

/-- `EmployeeStore.seedData`, parameterised by the stream of faker-generated
records (the constructor consumes 10000 of them): each loop iteration builds
one record from faker output (`uuidv4()` id, faker names, a salary from
`faker.number.int` between 30000 and 150000, a past `hireDate` from
`faker.date.past`, an `isActive` from `faker.datatype.boolean`) and inserts
it keyed by its id. -/
def seedData (gens : List Employee) : Store :=
  gens.foldl (fun m g => mapSet m g.id g) []

end EmployeeStore

/-- Constraints faker guarantees for every generated seed record when seeding
happens at time `now`: the salary is drawn from the interval 30000 to 150000
and the hire date lies in the past. The generated `isActive` is a coin flip
(true with probability 0.9), so it is an arbitrary boolean. -/
def fakerOk (now : Nat) (g : Employee) : Bool :=
  decide (30000 ≤ g.salary) && decide (g.salary ≤ 150000) && decide (g.hireDate < now)

/-- A JSON value standing for the `salary` field of a create body: the
validator checks `typeof salary` at runtime, so the model keeps the field
untyped. -/
inductive JsonVal where
  | num (n : Int)
  | str (s : String)
  | bool (b : Bool)
  | null
deriving Repr, DecidableEq

/-- Body of a POST /employees request. The five name-like fields are either
absent or strings (the types the API expects of its clients); `salary` is an
arbitrary JSON value because the validator inspects its runtime type. -/
structure CreateBody where
  firstName : Option String := none
  lastName : Option String := none
  email : Option String := none
  position : Option String := none
  department : Option String := none
  salary : Option JsonVal := none
deriving Repr, DecidableEq

/-- JavaScript truthiness of an optional string field: absent (`undefined`)
and the empty string are falsy. -/
def strTruthy : Option String → Bool
  | none => false
  | some s => decide (s ≠ "")

/-- Extracts `salary` when it is a JSON number, i.e. when
`typeof salary === 'number'` holds. -/
def numVal : Option JsonVal → Option Int
  | some (JsonVal.num n) => some n
  | _ => none

/-- The `validateCreateEmployee` middleware: `some errorMessage` when the
request is rejected with status 400, `none` when it calls `next()`. -/
def validateCreateEmployee (b : CreateBody) : Option String :=
  if !strTruthy b.firstName || !strTruthy b.lastName || !strTruthy b.email
      || !strTruthy b.position || !strTruthy b.department
      || !(numVal b.salary).isSome then
    some "Missing required fields: firstName, lastName, email, position, department, salary"
  else if (numVal b.salary).getD 0 < 0 then
    some "Salary must be a positive number"
  else
    none

/-- Result of the POST /employees route as seen by the client. -/
inductive CreateRouteResult where
  | created (e : Employee)
  | badRequest (msg : String)
deriving Repr, DecidableEq

/-- The POST /employees route: runs the validation middleware and, only when
it passes, calls `employeeStore.create(req.body)`. `newId` and `now` stand
for the `uuidv4()` and `new Date()` drawn inside `create`. -/
def postEmployees (m : Store) (newId : String) (now : Nat) (b : CreateBody) :
    CreateRouteResult × Store :=
  match validateCreateEmployee b with
  | some msg => (CreateRouteResult.badRequest msg, m)
  | none =>
    let d : CreateEmployeeRequest := {
      firstName := b.firstName.getD ""
      lastName := b.lastName.getD ""
      email := b.email.getD ""
      position := b.position.getD ""
      department := b.department.getD ""
      salary := (numVal b.salary).getD 0 }
    let r := EmployeeStore.create m newId now d
    (CreateRouteResult.created r.1, r.2)

/-- The PUT /employees/:id route: there is no validation middleware, the
request body is handed to the store update directly. -/
def putEmployees (m : Store) (id : String) (u : UpdateEmployeeRequest) :
    Option Employee × Store :=
  EmployeeStore.update m id u

/-- One mutating request through the public interface: a validated create, an
unvalidated update, or a delete. -/
inductive Op where
  | post (newId : String) (now : Nat) (b : CreateBody)
  | put (id : String) (u : UpdateEmployeeRequest)
  | del (id : String)

/-- Effect of one request on the table. -/
def runOp (m : Store) : Op → Store
  | Op.post newId now b => (postEmployees m newId now b).2
  | Op.put id u => (putEmployees m id u).2
  | Op.del id => (EmployeeStore.delete m id).2

/-- Effect of a sequence of requests on the table. -/
def runOps (m : Store) (ops : List Op) : Store := ops.foldl runOp m

/-- An update payload whose salary field, when present, is non-negative; the
other request kinds are unconditionally safe for the salary invariant. -/
def opSafe : Op → Bool
  | Op.put _ u =>
    match u.salary with
    | some n => decide (0 ≤ n)
    | none => true
  | _ => true

/-- A concrete employee used to instantiate the theorems on a concrete table. -/
def empA : Employee := {
  id := "a1", firstName := "Ada", lastName := "Lovelace",
  email := "ada@example.com", position := "Engineer",
  department := "Engineering", salary := 100000, hireDate := 50,
  isActive := true }

/-- A second concrete employee for the sample table. -/
def empB : Employee := {
  id := "b2", firstName := "Blaise", lastName := "Pascal",
  email := "blaise@example.com", position := "Analyst",
  department := "Finance", salary := 90000, hireDate := 60,
  isActive := false }

/-- A concrete two-record table. -/
def sampleStore : Store := [("a1", empA), ("b2", empB)]

/-- A concrete create payload. -/
def sampleCreate : CreateEmployeeRequest := {
  firstName := "John", lastName := "Doe", email := "john.doe@example.com",
  position := "Software Engineer", department := "Engineering",
  salary := 75000 }

/-- A concrete update payload raising the salary. -/
def raiseUpd : UpdateEmployeeRequest := { salary := some 80000 }

/-- A concrete update payload carrying a negative salary, as the unvalidated
PUT route accepts it. -/
def negUpd : UpdateEmployeeRequest := { salary := some (-5) }

/-- A concrete faker output for seeding: in-range salary, past hire date, and
the 10 percent coin-flip outcome `isActive = false`. -/
def seedGenA : Employee := {
  id := "s0", firstName := "Grace", lastName := "Hopper",
  email := "grace@example.com", position := "Admiral",
  department := "Navy", salary := 30000, hireDate := 5,
  isActive := false }

/-- A concrete valid create body. -/
def okBody : CreateBody := {
  firstName := some "John", lastName := some "Doe",
  email := some "john.doe@example.com", position := some "Software Engineer",
  department := some "Engineering", salary := some (JsonVal.num 75000) }

/-- A concrete create body missing every field but `firstName`. -/
def badBody : CreateBody := { firstName := some "John" }

/-- The PUT request body as the route actually receives it: `req.body` is
parsed JSON handed to the store with no validation, so any Employee key may
be supplied — `id` and `hireDate` included, although they lie outside the
`UpdateEmployeeRequest` interface. Field values are modelled at the record's
field types. -/
structure RawUpdateBody where
  id : Option String := none
  firstName : Option String := none
  lastName : Option String := none
  email : Option String := none
  position : Option String := none
  department : Option String := none
  salary : Option Int := none
  hireDate : Option Nat := none
  isActive : Option Bool := none
deriving Repr, DecidableEq

/-- The runtime spread `...employee, ...updateData` of `EmployeeStore.update`
over the raw body: every key the body supplies overwrites the stored field,
`id` and `hireDate` included; nothing is reassigned after the spread (unlike
`create`, where `hireDate` and `isActive` follow the spread). `applyUpdate`
is the restriction of this merge to the typed client interface. -/
def EmployeeStore.spreadUpdate (e : Employee) (u : RawUpdateBody) : Employee :=
  { id := u.id.getD e.id
    firstName := u.firstName.getD e.firstName
    lastName := u.lastName.getD e.lastName
    email := u.email.getD e.email
    position := u.position.getD e.position
    department := u.department.getD e.department
    salary := u.salary.getD e.salary
    hireDate := u.hireDate.getD e.hireDate
    isActive := u.isActive.getD e.isActive }

/-- `EmployeeStore.update` on the raw, unvalidated body: the merged record is
stored under the route's `id` parameter (`this.employees.set(id, ...)` uses
the parameter, not the record's possibly rewritten `id` field). -/
def EmployeeStore.updateRaw (m : Store) (id : String) (u : RawUpdateBody) :
    Option Employee × Store :=
  match mapGet m id with
  | none => (none, m)
  | some e =>
    let e' := EmployeeStore.spreadUpdate e u
    (some e', mapSet m id e')

/-- Embedding of the typed client payload into the raw body: the TS interface
can carry neither `id` nor `hireDate`. -/
def toRawBody (u : UpdateEmployeeRequest) : RawUpdateBody :=
  { firstName := u.firstName
    lastName := u.lastName
    email := u.email
    position := u.position
    department := u.department
    salary := u.salary
    isActive := u.isActive }

/-- A raw PUT body carrying an `id` key, as the unvalidated route accepts. -/
def evilUpd : RawUpdateBody := { id := some "evil" }

/-- A raw PUT body raising the salary. -/
def rawRaise : RawUpdateBody := { salary := some 80000 }

/-! Basic lemmas about the association-list rendering of the JavaScript Map. -/

theorem keys_cons (k : String) (v : Employee) (m : Store) :
    keys ((k, v) :: m) = k :: keys m := rfl

theorem values_cons (k : String) (v : Employee) (m : Store) :
    values ((k, v) :: m) = v :: values m := rfl

theorem mapGet_mapSet_self (m : Store) (k : String) (v : Employee) :
    mapGet (mapSet m k v) k = some v := by
  induction m with
  | nil => simp [mapSet, mapGet]
  | cons p rest ih =>
    obtain ⟨k', v'⟩ := p
    by_cases h : k' = k <;> simp [mapSet, mapGet, h, ih]

theorem mapGet_mapSet_ne (m : Store) (k k1 : String) (v : Employee)
    (h : k1 ≠ k) : mapGet (mapSet m k v) k1 = mapGet m k1 := by
  induction m with
  | nil => simp [mapSet, mapGet, Ne.symm h]
  | cons p rest ih =>
    obtain ⟨k', v'⟩ := p
    by_cases hk : k' = k
    · subst hk
      simp [mapSet, mapGet, Ne.symm h]
    · simp [mapSet, mapGet, hk, ih]

theorem mapSet_of_get_none (m : Store) (k : String) (v : Employee)
    (h : mapGet m k = none) : mapSet m k v = m ++ [(k, v)] := by
  induction m with
  | nil => simp [mapSet]
  | cons p rest ih =>
    obtain ⟨k', v'⟩ := p
    by_cases hk : k' = k
    · simp [mapGet, hk] at h
    · simp [mapGet, hk] at h
      simp [mapSet, hk, ih h]

theorem keys_mapSet_of_get_some (m : Store) (k : String) (v e : Employee)
    (h : mapGet m k = some e) : keys (mapSet m k v) = keys m := by
  induction m with
  | nil => simp [mapGet] at h
  | cons p rest ih =>
    obtain ⟨k', v'⟩ := p
    by_cases hk : k' = k
    · subst hk
      rw [show mapSet ((k', v') :: rest) k' v = (k', v) :: rest by simp [mapSet]]
      rw [keys_cons, keys_cons]
    · simp [mapGet, hk] at h
      rw [show mapSet ((k', v') :: rest) k v = (k', v') :: mapSet rest k v by
        simp [mapSet, hk]]
      rw [keys_cons, keys_cons, ih h]

theorem mapGet_mem_values (m : Store) (k : String) (e : Employee)
    (h : mapGet m k = some e) : e ∈ values m := by
  induction m with
  | nil => simp [mapGet] at h
  | cons p rest ih =>
    obtain ⟨k', v'⟩ := p
    rw [values_cons]
    by_cases hk : k' = k
    · simp [mapGet, hk] at h
      subst h
      exact List.mem_cons_self _ _
    · simp [mapGet, hk] at h
      exact List.mem_cons.2 (Or.inr (ih h))

theorem mapGet_eq_none_of_not_mem (m : Store) (k : String)
    (h : k ∉ keys m) : mapGet m k = none := by
  induction m with
  | nil => simp [mapGet]
  | cons p rest ih =>
    obtain ⟨k', v'⟩ := p
    rw [keys_cons] at h
    simp [not_or] at h
    simp [mapGet, Ne.symm h.1, ih h.2]

theorem mapDelete_of_get_none (m : Store) (k : String)
    (h : mapGet m k = none) : mapDelete m k = m := by
  induction m with
  | nil => simp [mapDelete]
  | cons p rest ih =>
    obtain ⟨k', v'⟩ := p
    by_cases hk : k' = k
    · simp [mapGet, hk] at h
    · simp [mapGet, hk] at h
      simp [mapDelete, hk, ih h]

theorem mapGet_mapDelete_ne (m : Store) (k k1 : String)
    (h : k1 ≠ k) : mapGet (mapDelete m k) k1 = mapGet m k1 := by
  induction m with
  | nil => simp [mapDelete]
  | cons p rest ih =>
    obtain ⟨k', v'⟩ := p
    by_cases hk : k' = k
    · subst hk
      simp [mapDelete, mapGet, Ne.symm h]
    · simp [mapDelete, mapGet, hk, ih]

theorem mapGet_mapDelete_self (m : Store) (k : String)
    (hnd : (keys m).Nodup) : mapGet (mapDelete m k) k = none := by
  induction m with
  | nil => simp [mapDelete, mapGet]
  | cons p rest ih =>
    obtain ⟨k', v'⟩ := p
    rw [keys_cons, List.nodup_cons] at hnd
    by_cases hk : k' = k
    · subst hk
      simpa [mapDelete] using mapGet_eq_none_of_not_mem rest k' hnd.1
    · simp [mapDelete, mapGet, hk]
      exact ih hnd.2

theorem length_mapDelete_of_get_some (m : Store) (k : String) (e : Employee)
    (h : mapGet m k = some e) : (mapDelete m k).length + 1 = m.length := by
  induction m with
  | nil => simp [mapGet] at h
  | cons p rest ih =>
    obtain ⟨k', v'⟩ := p
    by_cases hk : k' = k
    · simp [mapDelete, hk]
    · simp [mapGet, hk] at h
      simp [mapDelete, hk]
      exact ih h

theorem filter_ne_eq_self_of_not_mem (m : Store) (k : String)
    (h : k ∉ keys m) : m.filter (fun p => decide (p.1 ≠ k)) = m := by
  apply List.filter_eq_self.2
  intro a ha
  have hk1 : a.1 ∈ keys m := List.mem_map_of_mem Prod.fst ha
  have hne : a.1 ≠ k := fun he => h (he ▸ hk1)
  simpa using hne

theorem mapDelete_eq_filter (m : Store) (k : String)
    (hnd : (keys m).Nodup) :
    mapDelete m k = m.filter (fun p => decide (p.1 ≠ k)) := by
  induction m with
  | nil => simp [mapDelete]
  | cons p rest ih =>
    obtain ⟨k', v'⟩ := p
    rw [keys_cons, List.nodup_cons] at hnd
    rw [List.filter_cons]
    by_cases hk : k' = k
    · subst hk
      have hcond : decide (((k', v') : String × Employee).1 ≠ k') = false := by
        simp
      rw [hcond, if_neg Bool.false_ne_true]
      simp only [mapDelete]
      rw [if_pos trivial]
      exact (filter_ne_eq_self_of_not_mem rest k' hnd.1).symm
    · have hcond : decide (((k', v') : String × Employee).1 ≠ k) = true := by
        simp [hk]
      rw [hcond, if_pos rfl]
      simp only [mapDelete]
      rw [if_neg hk, ih hnd.2]

theorem mem_values_mapSet (m : Store) (k : String) (v e1 : Employee)
    (h : e1 ∈ values (mapSet m k v)) : e1 = v ∨ e1 ∈ values m := by
  induction m with
  | nil =>
    simp [mapSet, values] at h
    exact Or.inl h
  | cons p rest ih =>
    obtain ⟨k', v'⟩ := p
    by_cases hk : k' = k
    · subst hk
      rw [show mapSet ((k', v') :: rest) k' v = (k', v) :: rest by simp [mapSet],
        values_cons] at h
      rw [values_cons]
      rcases List.mem_cons.1 h with h | h
      · exact Or.inl h
      · exact Or.inr (List.mem_cons.2 (Or.inr h))
    · rw [show mapSet ((k', v') :: rest) k v = (k', v') :: mapSet rest k v by
        simp [mapSet, hk], values_cons] at h
      rw [values_cons]
      rcases List.mem_cons.1 h with h | h
      · exact Or.inr (List.mem_cons.2 (Or.inl h))
      · rcases ih h with h1 | h1
        · exact Or.inl h1
        · exact Or.inr (List.mem_cons.2 (Or.inr h1))

theorem mem_values_mapDelete (m : Store) (k : String) (e1 : Employee)
    (h : e1 ∈ values (mapDelete m k)) : e1 ∈ values m := by
  induction m with
  | nil => simpa [mapDelete] using h
  | cons p rest ih =>
    obtain ⟨k', v'⟩ := p
    by_cases hk : k' = k
    · subst hk
      rw [show mapDelete ((k', v') :: rest) k' = rest by simp [mapDelete]] at h
      rw [values_cons]
      exact List.mem_cons.2 (Or.inr h)
    · rw [show mapDelete ((k', v') :: rest) k = (k', v') :: mapDelete rest k by
        simp [mapDelete, hk], values_cons] at h
      rw [values_cons]
      rcases List.mem_cons.1 h with h | h
      · exact List.mem_cons.2 (Or.inl h)
      · exact List.mem_cons.2 (Or.inr (ih h))

/-! Arithmetic and invariant helper lemmas. -/

theorem ceilNat_eq_ceil (a b : Nat) (hb : 0 < b) :
    EmployeeStore.ceilNat a b = ⌈(a : ℚ) / (b : ℚ)⌉₊ := by
  unfold EmployeeStore.ceilNat
  rw [← Nat.ceilDiv_eq_add_pred_div]
  refine eq_of_forall_ge_iff fun c => ?_
  rw [ceilDiv_le_iff_le_mul hb, Nat.ceil_le,
    div_le_iff₀ (show (0 : ℚ) < b by exact_mod_cast hb), mul_comm]
  exact_mod_cast Iff.rfl

theorem validate_pass_salary (b : CreateBody)
    (h : validateCreateEmployee b = none) : 0 ≤ (numVal b.salary).getD 0 := by
  unfold validateCreateEmployee at h
  split at h
  · simp at h
  · split at h
    · simp at h
    · omega

theorem runOp_salary_nonneg (m : Store) (op : Op)
    (h : ∀ e ∈ values m, 0 ≤ e.salary) (hs : opSafe op = true) :
    ∀ e ∈ values (runOp m op), 0 ≤ e.salary := by
  intro e he
  cases op with
  | post newId now b =>
    cases hv : validateCreateEmployee b with
    | some msg =>
      simp only [runOp, postEmployees, hv] at he
      exact h e he
    | none =>
      simp only [runOp, postEmployees, hv] at he
      rcases mem_values_mapSet _ _ _ _ he with rfl | hm
      · simpa [EmployeeStore.create] using validate_pass_salary b hv
      · exact h e hm
  | put id u =>
    cases hg : mapGet m id with
    | none =>
      simp only [runOp, putEmployees, EmployeeStore.update, hg] at he
      exact h e he
    | some emp =>
      simp only [runOp, putEmployees, EmployeeStore.update, hg] at he
      rcases mem_values_mapSet _ _ _ _ he with rfl | hm
      · have hemp := h emp (mapGet_mem_values m id emp hg)
        cases hu : u.salary with
        | none => simpa [EmployeeStore.applyUpdate, hu] using hemp
        | some n =>
          have hn : 0 ≤ n := by simpa [opSafe, hu] using hs
          simpa [EmployeeStore.applyUpdate, hu] using hn
      · exact h e hm
  | del id =>
    simp only [runOp, EmployeeStore.delete] at he
    exact h e (mem_values_mapDelete m id e he)

theorem seed_salary_nonneg_aux (gens : List Employee) (m0 : Store)
    (h0 : ∀ e ∈ values m0, 0 ≤ e.salary) (hg : ∀ g ∈ gens, 0 ≤ g.salary) :
    ∀ e ∈ values (gens.foldl (fun m g => mapSet m g.id g) m0), 0 ≤ e.salary := by
  induction gens generalizing m0 with
  | nil => simpa using h0
  | cons g gens ih =>
    intro e he
    rw [List.foldl_cons] at he
    refine ih (mapSet m0 g.id g) ?_
      (fun g1 hg1 => hg g1 (List.mem_cons.2 (Or.inr hg1))) e he
    intro e1 he1
    rcases mem_values_mapSet _ _ _ _ he1 with heq | hm
    · exact heq ▸ hg g (List.mem_cons_self _ _)
    · exact h0 e1 hm

theorem runOps_salary_nonneg (m : Store) (ops : List Op)
    (h : ∀ e ∈ values m, 0 ≤ e.salary) (hops : ∀ op ∈ ops, opSafe op = true) :
    ∀ e ∈ values (runOps m ops), 0 ≤ e.salary := by
  induction ops generalizing m with
  | nil => simpa [runOps] using h
  | cons op ops ih =>
    intro e he
    rw [runOps, List.foldl_cons] at he
    exact ih (runOp m op)
      (runOp_salary_nonneg m op h (hops op (List.mem_cons_self _ _)))
      (fun o ho => hops o (List.mem_cons.2 (Or.inr ho))) e he

theorem mapGet_append_none (m : Store) (a k : String) (b : Employee)
    (h : mapGet m k = none) (hak : a ≠ k) : mapGet (m ++ [(a, b)]) k = none := by
  induction m with
  | nil => simp [mapGet, hak]
  | cons p rest ih =>
    obtain ⟨k', v'⟩ := p
    by_cases hk : k' = k
    · simp [mapGet, hk] at h
    · simp [mapGet, hk] at h ⊢
      exact ih h

theorem seedData_shape_aux (gens : List Employee) (m0 : Store)
    (h : ∀ g ∈ gens, mapGet m0 g.id = none)
    (hnd : (gens.map Employee.id).Nodup) :
    gens.foldl (fun m g => mapSet m g.id g) m0
      = m0 ++ gens.map (fun g => (g.id, g)) := by
  induction gens generalizing m0 with
  | nil => simp
  | cons g gens ih =>
    rw [List.map_cons, List.nodup_cons] at hnd
    rw [List.foldl_cons, List.map_cons,
      mapSet_of_get_none m0 g.id g (h g (List.mem_cons_self _ _))]
    have hrest : ∀ g1 ∈ gens, mapGet (m0 ++ [(g.id, g)]) g1.id = none := by
      intro g1 hg1
      refine mapGet_append_none m0 g.id g1.id g
        (h g1 (List.mem_cons.2 (Or.inr hg1))) ?_
      intro he
      apply hnd.1
      rw [he]
      exact List.mem_map_of_mem Employee.id hg1
    rw [ih (m0 ++ [(g.id, g)]) hrest hnd.2, List.append_assoc]
    rfl

theorem values_map_pair (l : List Employee) :
    values (l.map fun g => (g.id, g)) = l := by
  induction l with
  | nil => rfl
  | cons a l ih => simpa [values_cons] using ih

/-- The typed merge of the `UpdateEmployeeRequest` interface agrees with the
runtime spread on every payload the interface can express. -/
theorem applyUpdate_eq_spreadUpdate (e : Employee) (u : UpdateEmployeeRequest) :
    EmployeeStore.applyUpdate e u = EmployeeStore.spreadUpdate e (toRawBody u) := rfl

/-! The claims. -/

/-- C1, counterexample: the unvalidated PUT route lets a negative salary into
the table. Starting from a table seeded with one faker-valid record, the
single update request with payload salary -5 is a sequence of public
operations after which not every record has a non-negative salary. -/
theorem c1_counterexample :
    fakerOk 100 seedGenA = true ∧
    ¬ (∀ e ∈ values (runOps (EmployeeStore.seedData [seedGenA])
        [Op.put "s0" negUpd]), 0 ≤ e.salary) := by
  constructor
  · decide
  · decide

/-- C1, amended: every record accepted by seeding, validated creates and
deletes has a non-negative salary, and the invariant is preserved by every
public-interface sequence whose update payloads carry only non-negative
salaries; the unvalidated PUT route itself can break it, as the
counterexample shows. -/
theorem c1_salary_invariant (now : Nat) (gens : List Employee) (ops : List Op)
    (hg : ∀ g ∈ gens, fakerOk now g = true)
    (hops : ∀ op ∈ ops, opSafe op = true) :
    ∀ e ∈ values (runOps (EmployeeStore.seedData gens) ops), 0 ≤ e.salary := by
  refine runOps_salary_nonneg _ ops ?_ hops
  refine seed_salary_nonneg_aux gens [] (by simp [values]) ?_
  intro g hgm
  have hout := hg g hgm
  simp [fakerOk] at hout
  omega

/-- Witness for C1 at a concrete seed and request sequence. -/
theorem c1_salary_invariant_witness :
    (∀ g ∈ [seedGenA], fakerOk 100 g = true) ∧
    (∀ op ∈ [Op.post "n1" 70 okBody, Op.put "s0" raiseUpd, Op.del "n1"],
      opSafe op = true) ∧
    ∀ e ∈ values (runOps (EmployeeStore.seedData [seedGenA])
      [Op.post "n1" 70 okBody, Op.put "s0" raiseUpd, Op.del "n1"]),
      0 ≤ e.salary :=
  ⟨by decide, by decide,
    c1_salary_invariant 100 [seedGenA] _ (by decide) (by decide)⟩

/-- C5, counterexample: a seeded record does not follow the creation contract
of `create`. The faker-valid record `seedGenA` is stored as generated: its
`isActive` is false (the generator is a 0.9-probability coin flip, not the
constant true) and its `hireDate` is the generated past date 5, not the
seeding time 100. -/
theorem c5_counterexample :
    fakerOk 100 seedGenA = true ∧
    EmployeeStore.findById (EmployeeStore.seedData [seedGenA]) "s0"
      = some seedGenA ∧
    seedGenA.isActive = false ∧
    seedGenA.hireDate ≠ 100 := by
  refine ⟨by decide, by decide, by decide, by decide⟩

/-- C5, amended: when the generated ids are distinct, `seedData` populates
the table with exactly the given records keyed by their ids, so the table
size equals the seed count, all ids are unique, and every seeded record has
a salary between 30000 and 150000 (hence non-negative) and a past hire date;
`isActive` and `hireDate` come from the generator, not from the create
contract. -/
theorem c5_seed_contract (now : Nat) (gens : List Employee)
    (hg : ∀ g ∈ gens, fakerOk now g = true)
    (hnd : (gens.map Employee.id).Nodup) :
    EmployeeStore.seedData gens = gens.map (fun g => (g.id, g)) ∧
    EmployeeStore.count (EmployeeStore.seedData gens) = gens.length ∧
    (keys (EmployeeStore.seedData gens)).Nodup ∧
    ∀ e ∈ values (EmployeeStore.seedData gens),
      30000 ≤ e.salary ∧ e.salary ≤ 150000 ∧ e.hireDate < now := by
  have hshape : EmployeeStore.seedData gens = gens.map (fun g => (g.id, g)) := by
    have hs := seedData_shape_aux gens [] (fun g _ => rfl) hnd
    simpa [EmployeeStore.seedData] using hs
  have hkeys : keys (gens.map fun g => (g.id, g)) = gens.map Employee.id := by
    simp [keys, List.map_map]
  have hvals : values (gens.map fun g => (g.id, g)) = gens :=
    values_map_pair gens
  refine ⟨hshape, ?_, ?_, ?_⟩
  · rw [hshape]
    simp [EmployeeStore.count]
  · rw [hshape, hkeys]
    exact hnd
  · intro e he
    rw [hshape, hvals] at he
    have hout := hg e he
    simp [fakerOk] at hout
    exact ⟨hout.1.1, hout.1.2, hout.2⟩

/-- Witness for C5 at a concrete two-record seed. -/
theorem c5_seed_contract_witness :
    (∀ g ∈ [seedGenA, empA], fakerOk 100 g = true) ∧
    ([seedGenA, empA].map Employee.id).Nodup ∧
    EmployeeStore.count (EmployeeStore.seedData [seedGenA, empA]) = 2 :=
  ⟨by decide, by decide,
    by
      have h := c5_seed_contract 100 [seedGenA, empA] (by decide) (by decide)
      simpa using h.2.1⟩

/-- C2, counterexample: the claim's clause that the record's id is never
altered regardless of what the partial payload contains is false over the
payload universe the unvalidated PUT route actually accepts. Updating the
stored record a1 with the raw body carrying id evil returns and stores a
record whose id field is evil, not the stored a1. -/
theorem c2_counterexample :
    EmployeeStore.findById sampleStore "a1" = some empA ∧
    empA.id = "a1" ∧
    (EmployeeStore.updateRaw sampleStore "a1" evilUpd).1.map Employee.id
      = some "evil" ∧
    mapGet (EmployeeStore.updateRaw sampleStore "a1" evilUpd).2 "a1"
      = some (EmployeeStore.spreadUpdate empA evilUpd) ∧
    (EmployeeStore.spreadUpdate empA evilUpd).id ≠ empA.id := by
  refine ⟨by decide, by decide, by decide, by decide, by decide⟩

/-- C2, amended: on the raw unvalidated body, update performs the literal
shallow merge: every field the payload supplies — id and hireDate included —
overwrites the corresponding stored field, every absent field keeps its
stored value, and the merged record is both returned and stored under the
route's id key; the record's id and hireDate are unaltered exactly when the
payload does not carry them, which every payload of the typed client
interface guarantees but the route does not enforce. -/
theorem c2_update_shallow_merge (m : Store) (id : String)
    (u : RawUpdateBody) (e : Employee)
    (h : EmployeeStore.findById m id = some e) :
    (EmployeeStore.updateRaw m id u).1
      = some (EmployeeStore.spreadUpdate e u) ∧
    mapGet (EmployeeStore.updateRaw m id u).2 id
      = some (EmployeeStore.spreadUpdate e u) ∧
    (EmployeeStore.spreadUpdate e u).id
      = (match u.id with | some v => v | none => e.id) ∧
    (EmployeeStore.spreadUpdate e u).firstName
      = (match u.firstName with | some v => v | none => e.firstName) ∧
    (EmployeeStore.spreadUpdate e u).lastName
      = (match u.lastName with | some v => v | none => e.lastName) ∧
    (EmployeeStore.spreadUpdate e u).email
      = (match u.email with | some v => v | none => e.email) ∧
    (EmployeeStore.spreadUpdate e u).position
      = (match u.position with | some v => v | none => e.position) ∧
    (EmployeeStore.spreadUpdate e u).department
      = (match u.department with | some v => v | none => e.department) ∧
    (EmployeeStore.spreadUpdate e u).salary
      = (match u.salary with | some v => v | none => e.salary) ∧
    (EmployeeStore.spreadUpdate e u).hireDate
      = (match u.hireDate with | some v => v | none => e.hireDate) ∧
    (EmployeeStore.spreadUpdate e u).isActive
      = (match u.isActive with | some v => v | none => e.isActive) ∧
    (u.id = none → (EmployeeStore.spreadUpdate e u).id = e.id) ∧
    (u.hireDate = none →
      (EmployeeStore.spreadUpdate e u).hireDate = e.hireDate) := by
  have hm : mapGet m id = some e := h
  refine ⟨?_, ?_, ?_, ?_, ?_, ?_, ?_, ?_, ?_, ?_, ?_, ?_, ?_⟩
  · simp [EmployeeStore.updateRaw, hm]
  · simp only [EmployeeStore.updateRaw, hm]
    exact mapGet_mapSet_self m id _
  · cases hu : u.id <;> simp [EmployeeStore.spreadUpdate, hu]
  · cases hu : u.firstName <;> simp [EmployeeStore.spreadUpdate, hu]
  · cases hu : u.lastName <;> simp [EmployeeStore.spreadUpdate, hu]
  · cases hu : u.email <;> simp [EmployeeStore.spreadUpdate, hu]
  · cases hu : u.position <;> simp [EmployeeStore.spreadUpdate, hu]
  · cases hu : u.department <;> simp [EmployeeStore.spreadUpdate, hu]
  · cases hu : u.salary <;> simp [EmployeeStore.spreadUpdate, hu]
  · cases hu : u.hireDate <;> simp [EmployeeStore.spreadUpdate, hu]
  · cases hu : u.isActive <;> simp [EmployeeStore.spreadUpdate, hu]
  · intro hu
    simp [EmployeeStore.spreadUpdate, hu]
  · intro hu
    simp [EmployeeStore.spreadUpdate, hu]

/-- Witness for C2: raising the salary of the stored record `empA` through
the raw body. -/
theorem c2_update_shallow_merge_witness :
    EmployeeStore.findById sampleStore "a1" = some empA ∧
    (EmployeeStore.updateRaw sampleStore "a1" rawRaise).1
      = some (EmployeeStore.spreadUpdate empA rawRaise) :=
  ⟨by decide,
    (c2_update_shallow_merge sampleStore "a1" rawRaise empA (by decide)).1⟩

/-- C3: for a valid page and limit, findAll returns exactly the window of the
insertion-ordered record sequence starting at zero-based offset
(page - 1) * limit and of length limit; its length is
min limit (total - offset) in truncated subtraction, which is
min(limit, max(0, total - offset)); and an offset at or past the total
yields the empty list, not an error. -/
theorem c3_findAll_window (m : Store) (page limit : Nat)
    (hp : 1 ≤ page) (hl1 : 1 ≤ limit) (hl2 : limit ≤ 100) :
    (EmployeeStore.findAll m page limit).data
      = ((values m).drop ((page - 1) * limit)).take limit ∧
    (EmployeeStore.findAll m page limit).data.length
      = min limit ((values m).length - (page - 1) * limit) ∧
    ((values m).length ≤ (page - 1) * limit →
      (EmployeeStore.findAll m page limit).data = []) := by
  refine ⟨?_, ?_, ?_⟩
  · simp [EmployeeStore.findAll, Nat.add_sub_cancel_left]
  · simp [EmployeeStore.findAll, Nat.add_sub_cancel_left, List.length_take,
      List.length_drop]
  · intro hle
    simp [EmployeeStore.findAll, Nat.add_sub_cancel_left,
      List.drop_eq_nil_of_le hle]

/-- Witness for C3: page 2 with limit 1 on the two-record table. -/
theorem c3_findAll_window_witness :
    1 ≤ 2 ∧ 1 ≤ 1 ∧ 1 ≤ 100 ∧
    (EmployeeStore.findAll sampleStore 2 1).data
      = ((values sampleStore).drop 1).take 1 :=
  ⟨by decide, by decide, by decide,
    (c3_findAll_window sampleStore 2 1 (by decide) (by decide) (by decide)).1⟩

/-- C4: findAll's pagination metadata: total is the current table size,
totalPages is the ceiling of total / limit (0 when the table is empty),
hasNext is page < totalPages and hasPrev is page > 1. -/
theorem c4_findAll_pagination (m : Store) (page limit : Nat)
    (hp : 1 ≤ page) (hl1 : 1 ≤ limit) (hl2 : limit ≤ 100) :
    (EmployeeStore.findAll m page limit).pagination.total
      = EmployeeStore.count m ∧
    (EmployeeStore.findAll m page limit).pagination.totalPages
      = ⌈(EmployeeStore.count m : ℚ) / (limit : ℚ)⌉₊ ∧
    (EmployeeStore.count m = 0 →
      (EmployeeStore.findAll m page limit).pagination.totalPages = 0) ∧
    (EmployeeStore.findAll m page limit).pagination.hasNext
      = decide (page < (EmployeeStore.findAll m page limit).pagination.totalPages) ∧
    (EmployeeStore.findAll m page limit).pagination.hasPrev
      = decide (1 < page) := by
  have hcount : (values m).length = EmployeeStore.count m := by
    simp [values, EmployeeStore.count]
  refine ⟨?_, ?_, ?_, rfl, rfl⟩
  · simp [EmployeeStore.findAll, hcount]
  · show EmployeeStore.ceilNat (values m).length limit = _
    rw [hcount, ceilNat_eq_ceil _ _ hl1]
  · intro h0
    show EmployeeStore.ceilNat (values m).length limit = 0
    rw [hcount, h0]
    unfold EmployeeStore.ceilNat
    exact Nat.div_eq_of_lt (by omega)

/-- Witness for C4 at page 1, limit 10 on the two-record table. -/
theorem c4_findAll_pagination_witness :
    1 ≤ 1 ∧ 1 ≤ 10 ∧ 10 ≤ 100 ∧
    (EmployeeStore.findAll sampleStore 1 10).pagination.total
      = EmployeeStore.count sampleStore :=
  ⟨by decide, by decide, by decide,
    (c4_findAll_pagination sampleStore 1 10 (by decide) (by decide)
      (by decide)).1⟩

/-- C6: create with a fresh id returns the record built from the payload
fields with the server-side hireDate and isActive true, stores it, and
afterwards findById of the new id returns exactly that record while the
count grows by one. -/
theorem c6_create_contract (m : Store) (newId : String) (now : Nat)
    (d : CreateEmployeeRequest) (hfresh : mapGet m newId = none) :
    (EmployeeStore.create m newId now d).1.id = newId ∧
    (EmployeeStore.create m newId now d).1.isActive = true ∧
    (EmployeeStore.create m newId now d).1.hireDate = now ∧
    (EmployeeStore.create m newId now d).1.firstName = d.firstName ∧
    (EmployeeStore.create m newId now d).1.lastName = d.lastName ∧
    (EmployeeStore.create m newId now d).1.email = d.email ∧
    (EmployeeStore.create m newId now d).1.position = d.position ∧
    (EmployeeStore.create m newId now d).1.department = d.department ∧
    (EmployeeStore.create m newId now d).1.salary = d.salary ∧
    EmployeeStore.findById (EmployeeStore.create m newId now d).2 newId
      = some (EmployeeStore.create m newId now d).1 ∧
    EmployeeStore.count (EmployeeStore.create m newId now d).2
      = EmployeeStore.count m + 1 := by
  refine ⟨rfl, rfl, rfl, rfl, rfl, rfl, rfl, rfl, rfl, ?_, ?_⟩
  · exact mapGet_mapSet_self m newId _
  · rw [show (EmployeeStore.create m newId now d).2
        = mapSet m newId (EmployeeStore.create m newId now d).1 from rfl]
    rw [mapSet_of_get_none m newId _ hfresh]
    simp [EmployeeStore.count]

/-- Witness for C6: creating a record under the fresh id c3. -/
theorem c6_create_contract_witness :
    mapGet sampleStore "c3" = none ∧
    EmployeeStore.count (EmployeeStore.create sampleStore "c3" 77 sampleCreate).2
      = EmployeeStore.count sampleStore + 1 :=
  ⟨by decide,
    (c6_create_contract sampleStore "c3" 77 sampleCreate
      (by decide)).2.2.2.2.2.2.2.2.2.2⟩

/-- C7: for an id absent from the table, findById reports the not-found
signal, update reports it and returns the table unchanged, and delete
reports false and returns the table unchanged. -/
theorem c7_not_found (m : Store) (id : String) (u : UpdateEmployeeRequest)
    (h : mapGet m id = none) :
    EmployeeStore.findById m id = none ∧
    EmployeeStore.update m id u = (none, m) ∧
    EmployeeStore.delete m id = (false, m) := by
  refine ⟨h, ?_, ?_⟩
  · simp [EmployeeStore.update, h]
  · simp [EmployeeStore.delete, h, mapDelete_of_get_none m id h]

/-- Witness for C7 at the unknown id zz. -/
theorem c7_not_found_witness :
    mapGet sampleStore "zz" = none ∧
    EmployeeStore.delete sampleStore "zz" = (false, sampleStore) :=
  ⟨by decide, (c7_not_found sampleStore "zz" raiseUpd (by decide)).2.2⟩

/-- C8: deleting an existing id reports true, removes exactly that record
(subsequent findById of it is none and the count drops by exactly one), and
leaves the lookup of every other id unchanged. -/
theorem c8_delete_existing (m : Store) (id : String) (e : Employee)
    (hnd : (keys m).Nodup) (h : mapGet m id = some e) :
    (EmployeeStore.delete m id).1 = true ∧
    EmployeeStore.findById (EmployeeStore.delete m id).2 id = none ∧
    EmployeeStore.count (EmployeeStore.delete m id).2 + 1
      = EmployeeStore.count m ∧
    ∀ k, k ≠ id → mapGet (EmployeeStore.delete m id).2 k = mapGet m k := by
  refine ⟨?_, ?_, ?_, ?_⟩
  · simp [EmployeeStore.delete, h]
  · exact mapGet_mapDelete_self m id hnd
  · exact length_mapDelete_of_get_some m id e h
  · intro k hk
    exact mapGet_mapDelete_ne m id k hk

/-- Witness for C8: deleting the stored id a1. -/
theorem c8_delete_existing_witness :
    (keys sampleStore).Nodup ∧
    mapGet sampleStore "a1" = some empA ∧
    EmployeeStore.count (EmployeeStore.delete sampleStore "a1").2 + 1
      = EmployeeStore.count sampleStore :=
  ⟨by decide, by decide,
    (c8_delete_existing sampleStore "a1" empA (by decide) (by decide)).2.2.1⟩

/-- C9: a create request missing any of the five required string fields, or
whose salary is not a JSON number, or whose salary is negative, is rejected
by the validator with a 400 client error before the store is touched: the
route replies badRequest and the table is exactly the one before the call. -/
theorem c9_create_validation (m : Store) (newId : String) (now : Nat)
    (b : CreateBody)
    (h : b.firstName = none ∨ b.lastName = none ∨ b.email = none ∨
      b.position = none ∨ b.department = none ∨ numVal b.salary = none ∨
      ∃ n, numVal b.salary = some n ∧ n < 0) :
    (∃ msg, (postEmployees m newId now b).1
      = CreateRouteResult.badRequest msg) ∧
    (postEmployees m newId now b).2 = m := by
  cases hv : validateCreateEmployee b with
  | some msg =>
    refine ⟨⟨msg, ?_⟩, ?_⟩
    · simp [postEmployees, hv]
    · simp [postEmployees, hv]
  | none =>
    exfalso
    unfold validateCreateEmployee at hv
    split at hv
    · simp at hv
    · rename_i hcond
      simp only [Bool.or_eq_true, Bool.not_eq_true', not_or] at hcond
      rcases h with hx | hx | hx | hx | hx | hx | ⟨n, hn, hneg⟩
      · rw [hx] at hcond
        simp [strTruthy] at hcond
      · rw [hx] at hcond
        simp [strTruthy] at hcond
      · rw [hx] at hcond
        simp [strTruthy] at hcond
      · rw [hx] at hcond
        simp [strTruthy] at hcond
      · rw [hx] at hcond
        simp [strTruthy] at hcond
      · rw [hx] at hcond
        simp at hcond
      · split at hv
        · simp at hv
        · rename_i hge
          rw [hn] at hge
          simp [Option.getD] at hge
          omega

/-- Witness for C9: the body carrying only a firstName is rejected and the
table is untouched. -/
theorem c9_create_validation_witness :
    badBody.lastName = none ∧
    (postEmployees sampleStore "c3" 77 badBody).2 = sampleStore :=
  ⟨by decide,
    (c9_create_validation sampleStore "c3" 77 badBody
      (Or.inr (Or.inl (by decide)))).2⟩

/-- C10: mutations preserve the insertion-order enumeration of untouched
records: create with a fresh id appends its entry at the end, update on an
existing id keeps the key order and every other lookup unchanged, and delete
removes exactly the target entry, keeping the relative order of the rest. -/
theorem c10_order_preservation (m : Store) (newId oldId delId : String)
    (now : Nat) (d : CreateEmployeeRequest) (u : UpdateEmployeeRequest)
    (e : Employee) (hfresh : mapGet m newId = none)
    (hold : mapGet m oldId = some e) (hnd : (keys m).Nodup) :
    (EmployeeStore.create m newId now d).2
      = m ++ [(newId, (EmployeeStore.create m newId now d).1)] ∧
    keys (EmployeeStore.update m oldId u).2 = keys m ∧
    (∀ k, k ≠ oldId →
      mapGet (EmployeeStore.update m oldId u).2 k = mapGet m k) ∧
    (EmployeeStore.delete m delId).2
      = m.filter (fun p => decide (p.1 ≠ delId)) := by
  refine ⟨?_, ?_, ?_, ?_⟩
  · exact mapSet_of_get_none m newId _ hfresh
  · simp only [EmployeeStore.update, hold]
    exact keys_mapSet_of_get_some m oldId _ e hold
  · intro k hk
    simp only [EmployeeStore.update, hold]
    exact mapGet_mapSet_ne m oldId k _ hk
  · exact mapDelete_eq_filter m delId hnd

/-- Witness for C10 on the two-record table. -/
theorem c10_order_preservation_witness :
    mapGet sampleStore "c3" = none ∧
    mapGet sampleStore "a1" = some empA ∧
    (keys sampleStore).Nodup ∧
    (EmployeeStore.delete sampleStore "b2").2
      = sampleStore.filter (fun p => decide (p.1 ≠ "b2")) :=
  ⟨by decide, by decide, by decide,
    (c10_order_preservation sampleStore "c3" "a1" "b2" 77 sampleCreate
      raiseUpd empA (by decide) (by decide) (by decide)).2.2.2⟩

end EmployeesApi
